import Mathlib

/-!
Verification of the query-result ordering engine of the Firebase Realtime
Database client (`firebase_admin/db.py`).

The embedding models decoded JSON values as a tagged inductive type.  In the
host language (Python) the decoded values are `None`, `bool`, `int`/`float`,
`str`, `list` and `dict`; numbers are modelled as rationals (the claims under
study never exercise floating-point edge cases), strings as their code-point
sequences (Python compares strings lexicographically by code point, as does
the model below), and dictionaries as association lists in insertion order
with unique keys.
-/

namespace FirebaseDb

/-- A decoded JSON value, as handed to the sorting engine by `Query.run`
after the HTTP response has been parsed. -/
inductive JsonValue where
  | null
  | bool (b : Bool)
  | num (q : ℚ)
  | str (s : String)
  | arr (elems : List JsonValue)
  | obj (fields : List (String × JsonValue))

/-- The key of an entry inside a sortable collection: a string key when the
collection is a dict, an integer position (from `enumerate`) when it is a
list.  Within a single collection all keys have the same kind. -/
inductive EntryKey where
  | str (s : String)
  | int (n : Nat)
  deriving DecidableEq

/-- Lexicographic (code-point) comparison of character lists; this is the
semantics of `<` on Python strings and of `<` on Lean strings. -/
def char_list_lt : List Char → List Char → Bool
  | _, [] => false
  | [], _ :: _ => true
  | a :: as, b :: bs => decide (a < b) || (a == b && char_list_lt as bs)

/-- Comparison `a < b` on Python strings. -/
def str_lt (a b : String) : Bool :=
  char_list_lt a.data b.data

/-- The tuple `_RESERVED_FILTERS = ('$key', '$value', '$priority')`. -/
def reserved_filters : List String := ["$key", "$value", "$priority"]

/-- The string `_INVALID_PATH_CHARACTERS = '[].#$'`, as a character list. -/
def invalid_path_characters : List Char := ['[', ']', '.', '#', '$']

/-- Models `_parse_path` for string input (the isinstance check of the source
cannot fire on the call sites modelled here, which always pass a string):
reject paths holding an illegal character, otherwise split on `/` and drop
empty segments. -/
def parse_path (path : String) : Except String (List String) :=
  if invalid_path_characters.any (fun ch => path.data.contains ch) then
    Except.error ("Invalid path: \"" ++ path ++ "\". Path contains illegal characters.")
  else
    Except.ok ((path.splitOn "/").filter (fun seg => seg ≠ ""))

/-- The `order_by` argument of `Query.__init__` / the `path` argument of
`Reference.order_by_child`: either a Python string, or a value of any other
type (every non-string value is rejected identically, so one constructor
covers them all). -/
inductive OrderBySpec where
  | pystr (s : String)
  | nonstring

/-- Models `str.startswith('/')`. -/
def starts_with_slash (s : String) : Bool :=
  s.data.head? == some '/'

/-- Models the validation and normalization of the `order_by` argument in
`Query.__init__`: a falsy or non-string value is rejected; a reserved filter
token is kept as is; otherwise the value is a child path, which must not
start with `/`, must survive `_parse_path`, and is normalized by rejoining
its segments.  Returns the normalized `order_by` string. -/
def query_init_order_by (order_by : OrderBySpec) : Except String String :=
  match order_by with
  | OrderBySpec.nonstring => Except.error "order_by field must be a non-empty string"
  | OrderBySpec.pystr s =>
    if s = "" then Except.error "order_by field must be a non-empty string"
    else if s ∈ reserved_filters then Except.ok s
    else if starts_with_slash s then
      Except.error ("Invalid path argument: \"" ++ s ++ "\". Child path must not start with \"/\"")
    else
      (parse_path s).map (fun segments => String.intercalate "/" segments)

/-- Models `Reference.order_by_child` followed by `Query.__init__`: a reserved
filter token passed as a child path is rejected up front (a non-string value
is not `in _RESERVED_FILTERS`, so it falls through to the `Query`
constructor), then the `Query` constructor validates the path. -/
def order_by_child_query (path : OrderBySpec) : Except String String :=
  match path with
  | OrderBySpec.pystr s =>
    if s ∈ reserved_filters then Except.error ("Illegal child path: " ++ s)
    else query_init_order_by path
  | OrderBySpec.nonstring => query_init_order_by path

/-- The integer type codes `_type_none` .. `_type_object` of `_SortEntry`. -/
def type_none : Nat := 0

/-- Type code `_type_bool_false = 1`. -/
def type_bool_false : Nat := 1

/-- Type code `_type_bool_true = 2`. -/
def type_bool_true : Nat := 2

/-- Type code `_type_numeric = 3`. -/
def type_numeric : Nat := 3

/-- Type code `_type_string = 4`. -/
def type_string : Nat := 4

/-- Type code `_type_object = 5`. -/
def type_object : Nat := 5

/-- Models `_SortEntry._get_index_type`.  The Python source tests
`isinstance(index, bool)` before `isinstance(index, (int, float))`, so a
boolean is always classified as a boolean and never as a number even though
`bool` is a subclass of `int` in the host language; the tagged model keeps
the two constructors apart accordingly. -/
def get_index_type (index : JsonValue) : Nat :=
  match index with
  | JsonValue.null => type_none
  | JsonValue.bool false => type_bool_false
  | JsonValue.bool true => type_bool_true
  | JsonValue.num _ => type_numeric
  | JsonValue.str _ => type_string
  | _ => type_object

/-- The loop body of `_SortEntry._extract_child`: walk the value as nested
dicts, one segment at a time.  `dict.get` yields `None` for an absent key,
and the Python loop then keeps walking with `current = None`, returning
`None` at the next step (or at the end); the model reproduces this with
`Option.getD JsonValue.null`. -/
def extract_child_walk : List String → JsonValue → JsonValue
  | [], current => current
  | segment :: rest, current =>
    match current with
    | JsonValue.obj fields => extract_child_walk rest ((fields.lookup segment).getD JsonValue.null)
    | _ => JsonValue.null

/-- Models `_SortEntry._extract_child`. -/
def extract_child (value : JsonValue) (path : String) : JsonValue :=
  extract_child_walk (path.splitOn "/") value

/-- The key of a `_SortEntry` viewed as a Python value, as stored in
`self._index` for `$key`/`$priority` ordering: the dict key string or the
integer list position. -/
def key_to_json : EntryKey → JsonValue
  | EntryKey.str s => JsonValue.str s
  | EntryKey.int n => JsonValue.num n

/-- A `_SortEntry`: the `(key, value)` pair together with the extracted
index.  `self._index_type` is always `_get_index_type(self._index)` (set in
`__init__`), so the model recomputes it via `index_type` below instead of
duplicating the field. -/
structure SortEntry where
  key : EntryKey
  value : JsonValue
  index : JsonValue

/-- Models `_SortEntry.__init__`: extraction of the index from the key,
value and ordering specification. -/
def mk_sort_entry (key : EntryKey) (value : JsonValue) (order_by : String) : SortEntry :=
  { key := key
    value := value
    index :=
      if order_by = "$key" ∨ order_by = "$priority" then key_to_json key
      else if order_by = "$value" then value
      else extract_child value order_by }

/-- The `index_type` property of a `_SortEntry`. -/
def SortEntry.index_type (e : SortEntry) : Nat :=
  get_index_type e.index

/-- The test `self.index != other.index` as evaluated inside
`_SortEntry._compare`.  The test is short-circuited behind
`self_key in (self._type_numeric, self._type_string)` with equal index
types, so it is only ever evaluated on two numbers or on two strings; the
remaining cases are given an arbitrary value (`true`) and are unreachable
from `compare_entries`. -/
def index_ne : JsonValue → JsonValue → Bool
  | JsonValue.num a, JsonValue.num b => decide (a ≠ b)
  | JsonValue.str a, JsonValue.str b => decide (a ≠ b)
  | _, _ => true

/-- Three-way `<`/`>` comparison of two index values, as performed by the
final lines of `_SortEntry._compare` when the rebound comparands are the
indices.  Only reached on two numbers or two strings (see `index_ne`). -/
def index_compare : JsonValue → JsonValue → Int
  | JsonValue.num a, JsonValue.num b =>
      if a < b then -1 else if b < a then 1 else 0
  | JsonValue.str a, JsonValue.str b =>
      if str_lt a b then -1 else if str_lt b a then 1 else 0
  | _, _ => 0

/-- Python `<` on two entry keys.  Within one collection both keys have the
same kind (all dict keys are strings, all list keys are integers); comparing
an integer with a string would raise `TypeError` in the host language and
never happens in a sort, so the two cross-kind cases carry an arbitrary
total default. -/
def key_lt : EntryKey → EntryKey → Bool
  | EntryKey.int a, EntryKey.int b => decide (a < b)
  | EntryKey.str a, EntryKey.str b => str_lt a b
  | EntryKey.int _, EntryKey.str _ => true
  | EntryKey.str _, EntryKey.int _ => false

/-- Three-way `<`/`>` comparison of two entry keys, as performed by the
final lines of `_SortEntry._compare` when the rebound comparands are the
keys. -/
def key_compare (a b : EntryKey) : Int :=
  if key_lt a b then -1 else if key_lt b a then 1 else 0

/-- Three-way `<`/`>` comparison of two index type codes, as performed by
the final lines of `_SortEntry._compare` when the comparands are left as the
index types. -/
def type_compare (a b : Nat) : Int :=
  if a < b then -1 else if b < a then 1 else 0

/-- Models `_SortEntry._compare`.  The Python method rebinds
`self_key, other_key` to the index types, the indices, or the keys, and then
performs a single three-way `<`/`>` comparison; the model applies the
three-way comparison of the matching kind in each branch. -/
def compare_entries (a b : SortEntry) : Int :=
  if a.index_type = b.index_type then
    if (a.index_type = type_numeric ∨ a.index_type = type_string) ∧ index_ne a.index b.index then
      index_compare a.index b.index
    else
      key_compare a.key b.key
  else
    type_compare a.index_type b.index_type

/-- The ordering `sorted(entries)` sorts by: `a` not after `b` iff
`compare_entries a b ≤ 0`.  Python's sort consults `__lt__` only and is
stable; since `compare_entries` is antisymmetric (`compare_antisymm` below),
a stable merge sort with this boolean `le` computes the same list. -/
def entry_le (a b : SortEntry) : Bool :=
  decide (compare_entries a b ≤ 0)

/-- Models `sorted(entries)` in `_Sorter.__init__`. -/
def sort_entry_list (entries : List SortEntry) : List SortEntry :=
  entries.mergeSort entry_le

/-- The `_SortEntry` list built by `_Sorter.__init__` from a dict result
(`results.items()`, in insertion order). -/
def obj_entries (fields : List (String × JsonValue)) (order_by : String) : List SortEntry :=
  fields.map fun kv => mk_sort_entry (EntryKey.str kv.1) kv.2 order_by

/-- The `_SortEntry` list built by `_Sorter.__init__` from a list result
(`enumerate(results)`). -/
def arr_entries (elems : List JsonValue) (order_by : String) : List SortEntry :=
  elems.enum.map fun iv => mk_sort_entry (EntryKey.int iv.1) iv.2 order_by

/-- The string form of an entry key, as used when rebuilding the
`OrderedDict`; dict input only involves string keys, so the integer case is
unreachable there. -/
def key_string : EntryKey → String
  | EntryKey.str s => s
  | EntryKey.int n => toString n

/-- Models `_Sorter(results, order_by).get()`: a dict result becomes an
`OrderedDict` (an insertion-ordered key/value list) in sorted order, a list
result becomes the list of entry values in sorted order, and any other
result raises `ValueError` in `_Sorter.__init__`. -/
def sorter_run (results : JsonValue) (order_by : String) : Except String JsonValue :=
  match results with
  | JsonValue.obj fields =>
    Except.ok (JsonValue.obj ((sort_entry_list (obj_entries fields order_by)).map
      fun e => (key_string e.key, e.value)))
  | JsonValue.arr elems =>
    Except.ok (JsonValue.arr ((sort_entry_list (arr_entries elems order_by)).map
      fun e => e.value))
  | _ => Except.error "Sorting not supported for this object."

/-- Shape test `isinstance(result, dict)`. -/
def is_dict : JsonValue → Bool
  | JsonValue.obj _ => true
  | _ => false

/-- Shape test `isinstance(result, list)`. -/
def is_list : JsonValue → Bool
  | JsonValue.arr _ => true
  | _ => false

/-- A scalar or null result (neither dict nor list): returned unchanged by
`Query.run`. -/
def is_scalar_or_null : JsonValue → Bool
  | JsonValue.null => true
  | JsonValue.bool _ => true
  | JsonValue.num _ => true
  | JsonValue.str _ => true
  | _ => false

/-- Models the post-processing step of `Query.run` on the decoded response:
`if isinstance(result, (dict, list)) and self._order_by != '$priority':
return _Sorter(result, self._order_by).get()` else return the result as
received. -/
def query_run_sort (result : JsonValue) (order_by : String) : Except String JsonValue :=
  if (is_dict result || is_list result) && decide (order_by ≠ "$priority") then
    sorter_run result order_by
  else
    Except.ok result

/-- The index extracted for a non-key, non-priority ordering, as a function
of the entry value alone. -/
def value_index (o : String) (v : JsonValue) : JsonValue :=
  if o = "$value" then v else extract_child v o

/-- The by-child index extraction as the specification words it: split the
path on `/` and walk the value as nested objects; at a non-object value or
an absent key the walk stops with a null index at once.  Stated separately
from `extract_child` (whose loop keeps walking with a null current value
after an absent key) so the two can be proved to agree. -/
def child_walk_spec : List String → JsonValue → JsonValue
  | [], v => v
  | seg :: rest, JsonValue.obj fields =>
    match fields.lookup seg with
    | some v => child_walk_spec rest v
    | none => JsonValue.null
  | _ :: _, _ => JsonValue.null

/-- One index value of each of the six type ranks, in rank order: the
mixed-type sibling example of the specification. -/
def six_kinds : List JsonValue :=
  [JsonValue.null, JsonValue.bool false, JsonValue.bool true,
   JsonValue.num 3, JsonValue.str "a", JsonValue.obj []]

/-- The natural comparison of two index values of equal numeric or string
type, as named by the specification: numbers numerically, strings
lexicographically.  Heterogeneous pairs are never compared this way. -/
def index_nat_lt : JsonValue → JsonValue → Prop
  | JsonValue.num a, JsonValue.num b => a < b
  | JsonValue.str a, JsonValue.str b => str_lt a b = true
  | _, _ => False

/-- Ascending comparison of two entry keys of the same kind, as named by the
specification: numeric keys numerically, string keys lexicographically. -/
def entry_key_lt : EntryKey → EntryKey → Prop
  | EntryKey.int a, EntryKey.int b => a < b
  | EntryKey.str a, EntryKey.str b => str_lt a b = true
  | _, _ => False

/-- Two entry keys of the same kind (both dict keys or both list
positions), as holds inside any one collection. -/
def same_key_kind : EntryKey → EntryKey → Prop
  | EntryKey.str _, EntryKey.str _ => True
  | EntryKey.int _, EntryKey.int _ => True
  | _, _ => False

section StringOrder

lemma char_list_lt_irrefl (l : List Char) : char_list_lt l l = false := by
  induction l with
  | nil => rfl
  | cons a as ih => simp [char_list_lt, ih]

lemma char_list_lt_asymm : ∀ {l₁ l₂ : List Char},
    char_list_lt l₁ l₂ = true → char_list_lt l₂ l₁ = false
  | _ :: _, [], h => by simp [char_list_lt] at h
  | [], _ :: _, _ => by simp [char_list_lt]
  | a :: as, b :: bs, h => by
    simp only [char_list_lt, Bool.or_eq_true, Bool.and_eq_true, decide_eq_true_eq,
      beq_iff_eq] at h
    cases hc : char_list_lt (b :: bs) (a :: as) with
    | false => rfl
    | true =>
      exfalso
      simp only [char_list_lt, Bool.or_eq_true, Bool.and_eq_true, decide_eq_true_eq,
        beq_iff_eq] at hc
      rcases h with h | ⟨rfl, h⟩
      · rcases hc with hc | ⟨rfl, _⟩
        · exact absurd hc (not_lt_of_gt h)
        · exact lt_irrefl _ h
      · rcases hc with hc | ⟨_, hc⟩
        · exact lt_irrefl _ hc
        · rw [char_list_lt_asymm h] at hc
          exact Bool.false_ne_true hc

lemma char_list_lt_trans : ∀ {l₁ l₂ l₃ : List Char},
    char_list_lt l₁ l₂ = true → char_list_lt l₂ l₃ = true → char_list_lt l₁ l₃ = true
  | _, _, [], _, h2 => by simp [char_list_lt] at h2
  | [], _, _ :: _, _, _ => by simp [char_list_lt]
  | _ :: _, [], _, h1, _ => by simp [char_list_lt] at h1
  | a :: as, b :: bs, c :: cs, h1, h2 => by
    simp only [char_list_lt, Bool.or_eq_true, Bool.and_eq_true, decide_eq_true_eq,
      beq_iff_eq] at h1 h2 ⊢
    rcases h1 with h1 | ⟨rfl, h1⟩
    · rcases h2 with h2 | ⟨rfl, _⟩
      · exact Or.inl (lt_trans h1 h2)
      · exact Or.inl h1
    · rcases h2 with h2 | ⟨rfl, h2⟩
      · exact Or.inl h2
      · exact Or.inr ⟨rfl, char_list_lt_trans h1 h2⟩

lemma char_list_lt_connex : ∀ {l₁ l₂ : List Char}, l₁ ≠ l₂ →
    char_list_lt l₁ l₂ = true ∨ char_list_lt l₂ l₁ = true
  | [], [], h => absurd rfl h
  | [], _ :: _, _ => Or.inl (by simp [char_list_lt])
  | _ :: _, [], _ => Or.inr (by simp [char_list_lt])
  | a :: as, b :: bs, h => by
    rcases lt_trichotomy a b with hab | rfl | hab
    · exact Or.inl (by simp [char_list_lt, hab])
    · have : as ≠ bs := fun hh => h (by rw [hh])
      rcases char_list_lt_connex this with ht | ht
      · exact Or.inl (by simp [char_list_lt, ht])
      · exact Or.inr (by simp [char_list_lt, ht])
    · exact Or.inr (by simp [char_list_lt, hab])

lemma string_data_ne {a b : String} (h : a ≠ b) : a.data ≠ b.data := by
  intro hd
  apply h
  cases a with
  | mk l1 =>
    cases b with
    | mk l2 => exact congrArg String.mk (by simpa using hd)

lemma str_lt_irrefl (s : String) : str_lt s s = false :=
  char_list_lt_irrefl s.data

lemma str_lt_asymm {a b : String} (h : str_lt a b = true) : str_lt b a = false :=
  char_list_lt_asymm h

lemma str_lt_trans {a b c : String} (h1 : str_lt a b = true) (h2 : str_lt b c = true) :
    str_lt a c = true :=
  char_list_lt_trans h1 h2

lemma str_lt_connex {a b : String} (h : a ≠ b) :
    str_lt a b = true ∨ str_lt b a = true :=
  char_list_lt_connex (string_data_ne h)

lemma str_eq_of_not_lt {a b : String} (h1 : ¬ str_lt a b = true)
    (h2 : ¬ str_lt b a = true) : a = b := by
  by_contra hne
  rcases str_lt_connex hne with h | h
  · exact h1 h
  · exact h2 h

end StringOrder

section KeyOrder

lemma key_lt_irrefl (k : EntryKey) : key_lt k k = false := by
  cases k with
  | str s => simpa [key_lt] using str_lt_irrefl s
  | int n => simp [key_lt]

lemma key_lt_asymm : ∀ {k l : EntryKey}, key_lt k l = true → key_lt l k = false
  | EntryKey.int _, EntryKey.int _, h => by
    simp only [key_lt, decide_eq_true_eq] at h
    simp [key_lt, Nat.not_lt.mpr (Nat.le_of_lt h)]
  | EntryKey.str _, EntryKey.str _, h => str_lt_asymm h
  | EntryKey.int _, EntryKey.str _, _ => rfl
  | EntryKey.str _, EntryKey.int _, h => by simp [key_lt] at h

lemma key_lt_trans : ∀ {k l m : EntryKey},
    key_lt k l = true → key_lt l m = true → key_lt k m = true
  | EntryKey.int _, EntryKey.int _, EntryKey.int _, h1, h2 => by
    simp only [key_lt, decide_eq_true_eq] at h1 h2 ⊢
    exact Nat.lt_trans h1 h2
  | EntryKey.int _, EntryKey.int _, EntryKey.str _, _, _ => rfl
  | EntryKey.int _, EntryKey.str _, EntryKey.int _, _, h2 => by simp [key_lt] at h2
  | EntryKey.int _, EntryKey.str _, EntryKey.str _, _, _ => rfl
  | EntryKey.str _, EntryKey.int _, _, h1, _ => by simp [key_lt] at h1
  | EntryKey.str _, EntryKey.str _, EntryKey.int _, _, h2 => by simp [key_lt] at h2
  | EntryKey.str _, EntryKey.str _, EntryKey.str _, h1, h2 => str_lt_trans h1 h2

lemma key_eq_of_not_lt : ∀ {k l : EntryKey},
    ¬ key_lt k l = true → ¬ key_lt l k = true → k = l
  | EntryKey.int a, EntryKey.int b, h1, h2 => by
    simp only [key_lt, decide_eq_true_eq] at h1 h2
    exact congrArg EntryKey.int (Nat.le_antisymm (Nat.le_of_not_lt h2) (Nat.le_of_not_lt h1))
  | EntryKey.str a, EntryKey.str b, h1, h2 =>
    congrArg EntryKey.str (str_eq_of_not_lt h1 h2)
  | EntryKey.int _, EntryKey.str _, h1, _ => absurd rfl h1
  | EntryKey.str _, EntryKey.int _, _, h2 => absurd rfl h2

lemma key_lt_of_same_kind : ∀ {k l : EntryKey}, same_key_kind k l →
    (key_lt k l = true ↔ entry_key_lt k l)
  | EntryKey.int _, EntryKey.int _, _ => by simp [key_lt, entry_key_lt]
  | EntryKey.str _, EntryKey.str _, _ => by simp [key_lt, entry_key_lt]
  | EntryKey.int _, EntryKey.str _, h => absurd h (by simp [same_key_kind])
  | EntryKey.str _, EntryKey.int _, h => absurd h (by simp [same_key_kind])

end KeyOrder

section IndexType

lemma index_type_null_iff {i : JsonValue} :
    get_index_type i = type_none ↔ i = JsonValue.null := by
  cases i with
  | bool b =>
    cases b <;>
      simp [get_index_type, type_none, type_bool_false, type_bool_true]
  | _ =>
    simp [get_index_type, type_none, type_bool_false, type_bool_true, type_numeric,
      type_string, type_object]

lemma index_type_numeric_iff {i : JsonValue} :
    get_index_type i = type_numeric ↔ ∃ q, i = JsonValue.num q := by
  cases i with
  | bool b =>
    cases b <;>
      simp [get_index_type, type_numeric, type_bool_false, type_bool_true]
  | _ =>
    simp [get_index_type, type_none, type_numeric, type_string, type_object]

lemma index_type_string_iff {i : JsonValue} :
    get_index_type i = type_string ↔ ∃ s, i = JsonValue.str s := by
  cases i with
  | bool b =>
    cases b <;>
      simp [get_index_type, type_string, type_bool_false, type_bool_true]
  | _ =>
    simp [get_index_type, type_none, type_numeric, type_string, type_object]

lemma index_type_le_five (i : JsonValue) : get_index_type i ≤ 5 := by
  cases i with
  | bool b =>
    cases b <;>
      simp [get_index_type, type_bool_false, type_bool_true]
  | _ =>
    simp [get_index_type, type_none, type_numeric, type_string, type_object]

end IndexType

section Compare

@[simp] lemma index_type_def (e : SortEntry) : e.index_type = get_index_type e.index := rfl

lemma index_ne_symm (i j : JsonValue) : index_ne i j = index_ne j i := by
  cases i <;> cases j <;> try rfl
  all_goals
    simp only [index_ne]
    rw [decide_eq_decide]
    exact ne_comm

lemma index_ne_true_iff {i j : JsonValue} (ht : get_index_type i = get_index_type j)
    (h34 : get_index_type i = type_numeric ∨ get_index_type i = type_string) :
    (index_ne i j = true ↔ i ≠ j) := by
  rcases h34 with h | h
  · obtain ⟨p, rfl⟩ := index_type_numeric_iff.mp h
    obtain ⟨q, rfl⟩ := index_type_numeric_iff.mp (ht.symm.trans h)
    simp [index_ne]
  · obtain ⟨p, rfl⟩ := index_type_string_iff.mp h
    obtain ⟨q, rfl⟩ := index_type_string_iff.mp (ht.symm.trans h)
    simp [index_ne]

lemma index_compare_neg_iff (i j : JsonValue) :
    index_compare i j < 0 ↔ index_nat_lt i j := by
  cases i <;> cases j <;> try simp [index_compare, index_nat_lt]
  · rename_i p q
    split_ifs with h1 h2 <;> simp [h1]
  · rename_i p q
    cases h1 : str_lt p q <;> cases h2 : str_lt q p <;> simp [h1, h2]

lemma index_compare_antisymm (i j : JsonValue) :
    index_compare i j = -index_compare j i := by
  cases i <;> cases j <;> try simp [index_compare]
  · rename_i p q
    rcases lt_trichotomy p q with h | rfl | h
    · simp [h, not_lt_of_gt h]
    · simp
    · simp [h, not_lt_of_gt h]
  · rename_i p q
    cases h1 : str_lt p q <;> cases h2 : str_lt q p <;> simp [h1, h2]
    rw [str_lt_asymm h1] at h2
    exact Bool.false_ne_true h2

lemma index_compare_ne_zero {i j : JsonValue} (ht : get_index_type i = get_index_type j)
    (h34 : get_index_type i = type_numeric ∨ get_index_type i = type_string)
    (hne : i ≠ j) : index_compare i j ≠ 0 := by
  rcases h34 with h | h
  · obtain ⟨p, rfl⟩ := index_type_numeric_iff.mp h
    obtain ⟨q, rfl⟩ := index_type_numeric_iff.mp (ht.symm.trans h)
    have hpq : p ≠ q := fun hh => hne (by rw [hh])
    rcases lt_trichotomy p q with hlt | heq | hlt
    · simp [index_compare, hlt]
    · exact absurd heq hpq
    · simp [index_compare, hlt, not_lt_of_gt hlt]
  · obtain ⟨p, rfl⟩ := index_type_string_iff.mp h
    obtain ⟨q, rfl⟩ := index_type_string_iff.mp (ht.symm.trans h)
    have hpq : p ≠ q := fun hh => hne (by rw [hh])
    rcases str_lt_connex hpq with hlt | hlt
    · simp [index_compare, hlt]
    · simp [index_compare, hlt, str_lt_asymm hlt]

lemma key_compare_self (k : EntryKey) : key_compare k k = 0 := by
  simp [key_compare, key_lt_irrefl]

lemma key_compare_neg_iff (k l : EntryKey) :
    key_compare k l < 0 ↔ key_lt k l = true := by
  cases h1 : key_lt k l <;> cases h2 : key_lt l k <;> simp [key_compare, h1, h2]

lemma key_compare_antisymm (k l : EntryKey) :
    key_compare k l = -key_compare l k := by
  cases h1 : key_lt k l <;> cases h2 : key_lt l k <;> simp [key_compare, h1, h2]
  rw [key_lt_asymm h1] at h2
  exact Bool.false_ne_true h2

lemma key_compare_eq_zero_iff (k l : EntryKey) :
    key_compare k l = 0 ↔ k = l := by
  constructor
  · intro h
    cases h1 : key_lt k l <;> cases h2 : key_lt l k <;> simp [key_compare, h1, h2] at h
    exact key_eq_of_not_lt (by simp [h1]) (by simp [h2])
  · rintro rfl
    exact key_compare_self k

lemma type_compare_neg_iff (x y : Nat) : type_compare x y < 0 ↔ x < y := by
  unfold type_compare
  split_ifs with h1 h2 <;> simp [h1]

lemma type_compare_antisymm (x y : Nat) : type_compare x y = -type_compare y x := by
  unfold type_compare
  split_ifs with h1 h2 <;> omega

lemma type_compare_ne_zero {x y : Nat} (h : x ≠ y) : type_compare x y ≠ 0 := by
  unfold type_compare
  split_ifs with h1 h2 <;> omega

lemma index_nat_lt_trans {i j k : JsonValue} (h1 : index_nat_lt i j)
    (h2 : index_nat_lt j k) : index_nat_lt i k := by
  cases i <;> cases j <;> cases k <;>
    first
      | exact lt_trans h1 h2
      | exact str_lt_trans h1 h2
      | exact h1.elim
      | exact h2.elim

lemma index_nat_lt_irrefl (i : JsonValue) : ¬ index_nat_lt i i := by
  cases i <;> simp [index_nat_lt, str_lt_irrefl]

lemma index_nat_lt_ne {i j : JsonValue} (h : index_nat_lt i j) : i ≠ j := by
  intro he
  subst he
  exact index_nat_lt_irrefl i h

lemma index_cond_iff {a b : SortEntry} (ht : a.index_type = b.index_type) :
    (((a.index_type = type_numeric ∨ a.index_type = type_string)
        ∧ index_ne a.index b.index = true)
      ↔ ((a.index_type = type_numeric ∨ a.index_type = type_string) ∧ a.index ≠ b.index)) := by
  constructor
  · rintro ⟨h34, hne⟩
    exact ⟨h34, (index_ne_true_iff ht h34).mp hne⟩
  · rintro ⟨h34, hne⟩
    exact ⟨h34, (index_ne_true_iff ht h34).mpr hne⟩

lemma compare_self (a : SortEntry) : compare_entries a a = 0 := by
  unfold compare_entries
  rw [if_pos rfl]
  have hc : ¬ ((a.index_type = type_numeric ∨ a.index_type = type_string)
      ∧ index_ne a.index a.index = true) := by
    rintro ⟨h34, hne⟩
    exact absurd rfl ((index_ne_true_iff rfl h34).mp hne)
  rw [if_neg hc]
  exact key_compare_self a.key

lemma compare_antisymm (a b : SortEntry) : compare_entries a b = -compare_entries b a := by
  unfold compare_entries
  by_cases ht : a.index_type = b.index_type
  · rw [if_pos ht, if_pos ht.symm]
    by_cases hc : (a.index_type = type_numeric ∨ a.index_type = type_string)
        ∧ index_ne a.index b.index = true
    · have hc' : (b.index_type = type_numeric ∨ b.index_type = type_string)
          ∧ index_ne b.index a.index = true := by
        refine ⟨ht ▸ hc.1, ?_⟩
        rw [index_ne_symm]
        exact hc.2
      rw [if_pos hc, if_pos hc']
      exact index_compare_antisymm a.index b.index
    · have hc' : ¬ ((b.index_type = type_numeric ∨ b.index_type = type_string)
          ∧ index_ne b.index a.index = true) := by
        rintro ⟨h34, hne⟩
        refine hc ⟨ht.symm ▸ h34, ?_⟩
        rw [index_ne_symm]
        exact hne
      rw [if_neg hc, if_neg hc']
      exact key_compare_antisymm a.key b.key
  · rw [if_neg ht, if_neg (Ne.symm ht)]
    exact type_compare_antisymm a.index_type b.index_type

lemma compare_neg_iff (a b : SortEntry) :
    compare_entries a b < 0 ↔
      (a.index_type < b.index_type
        ∨ (a.index_type = b.index_type
            ∧ (((a.index_type = type_numeric ∨ a.index_type = type_string)
                  ∧ a.index ≠ b.index ∧ index_nat_lt a.index b.index)
               ∨ (¬ ((a.index_type = type_numeric ∨ a.index_type = type_string)
                      ∧ a.index ≠ b.index)
                  ∧ key_lt a.key b.key = true)))) := by
  unfold compare_entries
  by_cases ht : a.index_type = b.index_type
  · rw [if_pos ht]
    by_cases hc : (a.index_type = type_numeric ∨ a.index_type = type_string)
        ∧ index_ne a.index b.index = true
    · rw [if_pos hc]
      have hcp := (index_cond_iff ht).mp hc
      rw [index_compare_neg_iff]
      constructor
      · intro h
        exact Or.inr ⟨ht, Or.inl ⟨hcp.1, hcp.2, h⟩⟩
      · rintro (h | ⟨-, ⟨-, -, h⟩ | ⟨hn, -⟩⟩)
        · rw [ht] at h
          exact absurd h (lt_irrefl _)
        · exact h
        · exact absurd hcp hn
    · rw [if_neg hc]
      have hcp : ¬ ((a.index_type = type_numeric ∨ a.index_type = type_string)
          ∧ a.index ≠ b.index) := fun h => hc ((index_cond_iff ht).mpr h)
      rw [key_compare_neg_iff]
      constructor
      · intro h
        exact Or.inr ⟨ht, Or.inr ⟨hcp, h⟩⟩
      · rintro (h | ⟨-, ⟨h34, hne, -⟩ | ⟨-, h⟩⟩)
        · rw [ht] at h
          exact absurd h (lt_irrefl _)
        · exact absurd ⟨h34, hne⟩ hcp
        · exact h
  · rw [if_neg ht]
    rw [type_compare_neg_iff]
    constructor
    · intro h
      exact Or.inl h
    · rintro (h | ⟨he, -⟩)
      · exact h
      · exact absurd he ht

lemma compare_eq_zero_iff (a b : SortEntry) :
    compare_entries a b = 0 ↔
      a.index_type = b.index_type
        ∧ ¬ ((a.index_type = type_numeric ∨ a.index_type = type_string) ∧ a.index ≠ b.index)
        ∧ a.key = b.key := by
  unfold compare_entries
  by_cases ht : a.index_type = b.index_type
  · rw [if_pos ht]
    by_cases hc : (a.index_type = type_numeric ∨ a.index_type = type_string)
        ∧ index_ne a.index b.index = true
    · rw [if_pos hc]
      have hcp := (index_cond_iff ht).mp hc
      have hz := index_compare_ne_zero (i := a.index) (j := b.index) ht hcp.1 hcp.2
      constructor
      · intro h
        exact absurd h hz
      · rintro ⟨-, hn, -⟩
        exact absurd hcp hn
    · rw [if_neg hc]
      have hcp : ¬ ((a.index_type = type_numeric ∨ a.index_type = type_string)
          ∧ a.index ≠ b.index) := fun h => hc ((index_cond_iff ht).mpr h)
      rw [key_compare_eq_zero_iff]
      constructor
      · intro h
        exact ⟨ht, hcp, h⟩
      · rintro ⟨-, -, h⟩
        exact h
  · rw [if_neg ht]
    constructor
    · intro h
      exact absurd h (type_compare_ne_zero ht)
    · rintro ⟨he, -⟩
      exact absurd he ht

lemma compare_eq_of_components {a b : SortEntry} (hidx : a.index = b.index)
    (hkey : a.key = b.key) (c : SortEntry) :
    compare_entries a c = compare_entries b c := by
  obtain ⟨ka, va, ia⟩ := a
  obtain ⟨kb, vb, ib⟩ := b
  cases hidx
  cases hkey
  rfl

lemma compare_congr_left {a b : SortEntry} (h : compare_entries a b = 0) (c : SortEntry) :
    compare_entries a c = compare_entries b c := by
  obtain ⟨ht, hcond, hkey⟩ := (compare_eq_zero_iff a b).mp h
  by_cases h34 : a.index_type = type_numeric ∨ a.index_type = type_string
  · have hidx : a.index = b.index := by
      by_contra hne
      exact hcond ⟨h34, hne⟩
    exact compare_eq_of_components hidx hkey c
  · have h34b : ¬ (b.index_type = type_numeric ∨ b.index_type = type_string) := by
      rw [← ht]
      exact h34
    unfold compare_entries
    by_cases htc : a.index_type = c.index_type
    · rw [if_pos htc, if_pos (ht.symm.trans htc)]
      rw [if_neg (fun hcc => h34 hcc.1), if_neg (fun hcc => h34b hcc.1), hkey]
    · rw [if_neg htc, if_neg (fun hcc => htc (ht.trans hcc)), ← ht]

lemma compare_congr_right {b c : SortEntry} (h : compare_entries b c = 0) (a : SortEntry) :
    compare_entries a b = compare_entries a c :=
  calc compare_entries a b = -compare_entries b a := compare_antisymm a b
    _ = -compare_entries c a := by rw [compare_congr_left h a]
    _ = compare_entries a c := (compare_antisymm a c).symm

lemma compare_lt_trans {a b c : SortEntry} (h1 : compare_entries a b < 0)
    (h2 : compare_entries b c < 0) : compare_entries a c < 0 := by
  rw [compare_neg_iff] at h1 h2 ⊢
  rcases h1 with h1 | ⟨e1, h1⟩
  · rcases h2 with h2 | ⟨e2, h2⟩
    · exact Or.inl (lt_trans h1 h2)
    · exact Or.inl (by rw [← e2]; exact h1)
  · rcases h2 with h2 | ⟨e2, h2⟩
    · exact Or.inl (by rw [e1]; exact h2)
    · refine Or.inr ⟨e1.trans e2, ?_⟩
      rcases h1 with ⟨h34a, hne1, hlt1⟩ | ⟨hnc1, hk1⟩
      · rcases h2 with ⟨h34b, hne2, hlt2⟩ | ⟨hnc2, hk2⟩
        · refine Or.inl ⟨h34a, ?_, index_nat_lt_trans hlt1 hlt2⟩
          intro he
          have hlt2' : index_nat_lt b.index a.index := by
            rw [he]
            exact hlt2
          exact index_nat_lt_irrefl _ (index_nat_lt_trans hlt1 hlt2')
        · have h34b : b.index_type = type_numeric ∨ b.index_type = type_string := by
            rw [← e1]
            exact h34a
          have hbc : b.index = c.index := by
            by_contra hx
            exact hnc2 ⟨h34b, hx⟩
          refine Or.inl ⟨h34a, ?_, ?_⟩
          · rw [← hbc]
            exact hne1
          · rw [← hbc]
            exact hlt1
      · rcases h2 with ⟨h34b, hne2, hlt2⟩ | ⟨hnc2, hk2⟩
        · have h34a : a.index_type = type_numeric ∨ a.index_type = type_string := by
            rw [e1]
            exact h34b
          have hab : a.index = b.index := by
            by_contra hx
            exact hnc1 ⟨h34a, hx⟩
          refine Or.inl ⟨h34a, ?_, ?_⟩
          · rw [hab]
            exact hne2
          · rw [hab]
            exact hlt2
        · refine Or.inr ⟨?_, key_lt_trans hk1 hk2⟩
          rintro ⟨h34a, hneac⟩
          have h34b : b.index_type = type_numeric ∨ b.index_type = type_string := by
            rw [← e1]
            exact h34a
          have hab : a.index = b.index := by
            by_contra hx
            exact hnc1 ⟨h34a, hx⟩
          have hbc : b.index = c.index := by
            by_contra hx
            exact hnc2 ⟨h34b, hx⟩
          exact hneac (hab.trans hbc)

lemma compare_le_trans {a b c : SortEntry} (h1 : compare_entries a b ≤ 0)
    (h2 : compare_entries b c ≤ 0) : compare_entries a c ≤ 0 := by
  rcases lt_or_eq_of_le h1 with h1' | h1'
  · rcases lt_or_eq_of_le h2 with h2' | h2'
    · exact le_of_lt (compare_lt_trans h1' h2')
    · rw [compare_congr_right h2' a] at h1'
      exact le_of_lt h1'
  · rw [compare_congr_left h1' c]
    exact h2

lemma compare_le_total (a b : SortEntry) :
    compare_entries a b ≤ 0 ∨ compare_entries b a ≤ 0 := by
  have h := compare_antisymm a b
  omega

lemma entry_le_trans (a b c : SortEntry) (h1 : entry_le a b = true)
    (h2 : entry_le b c = true) : entry_le a c = true := by
  simp only [entry_le, decide_eq_true_eq] at h1 h2 ⊢
  exact compare_le_trans h1 h2

lemma entry_le_total (a b : SortEntry) : (entry_le a b || entry_le b a) = true := by
  simp only [entry_le, Bool.or_eq_true, decide_eq_true_eq]
  exact compare_le_total a b

end Compare

section Sorting

lemma eq_of_perm_of_pairwise {α : Type} {r : α → α → Prop} :
    ∀ {l₁ l₂ : List α}, l₁.Perm l₂ → l₁.Pairwise r → l₂.Pairwise r →
      (∀ a ∈ l₁, ∀ b ∈ l₁, r a b → r b a → a = b) → l₁ = l₂ := by
  intro l₁
  induction l₁ with
  | nil =>
    intro l₂ hp _ _ _
    exact hp.nil_eq
  | cons a t₁ ih =>
    intro l₂ hp hs₁ hs₂ hanti
    cases l₂ with
    | nil => simpa using hp.eq_nil
    | cons b t₂ =>
      by_cases hab : a = b
      · subst hab
        have htt : t₁.Perm t₂ := hp.cons_inv
        have hrec : t₁ = t₂ := by
          refine ih htt (List.pairwise_cons.mp hs₁).2 (List.pairwise_cons.mp hs₂).2 ?_
          intro x hx y hy hxy hyx
          exact hanti x (List.mem_cons_of_mem a hx) y (List.mem_cons_of_mem a hy) hxy hyx
        rw [hrec]
      · have hamem : a ∈ b :: t₂ := hp.mem_iff.mp (List.mem_cons_self a t₁)
        have hat₂ : a ∈ t₂ := by
          rcases List.mem_cons.mp hamem with h | h
          · exact absurd h hab
          · exact h
        have hbmem : b ∈ a :: t₁ := hp.symm.mem_iff.mp (List.mem_cons_self b t₂)
        have hbt₁ : b ∈ t₁ := by
          rcases List.mem_cons.mp hbmem with h | h
          · exact absurd h.symm hab
          · exact h
        have hrab : r a b := (List.pairwise_cons.mp hs₁).1 b hbt₁
        have hrba : r b a := (List.pairwise_cons.mp hs₂).1 a hat₂
        exact absurd
          (hanti a (List.mem_cons_self a t₁) b (List.mem_cons_of_mem a hbt₁) hrab hrba) hab

lemma sort_entry_list_perm (es : List SortEntry) : (sort_entry_list es).Perm es :=
  List.mergeSort_perm es entry_le

lemma sort_entry_list_sorted (es : List SortEntry) :
    (sort_entry_list es).Pairwise (fun a b => entry_le a b = true) :=
  List.sorted_mergeSort entry_le_trans entry_le_total es

lemma sort_entry_list_of_sorted {es : List SortEntry}
    (h : es.Pairwise (fun a b => entry_le a b = true)) : sort_entry_list es = es :=
  List.mergeSort_of_sorted h

lemma entry_key_ne_symmetric :
    Symmetric (fun a b : SortEntry => a.key ≠ b.key) :=
  fun _ _ h he => h he.symm

/-- Two permutations of one entry collection with pairwise distinct keys have
a unique sorted arrangement. -/
lemma sorted_entries_unique {es l₁ l₂ : List SortEntry}
    (hkeys : es.Pairwise (fun a b => a.key ≠ b.key))
    (h₁ : l₁.Perm es) (h₂ : l₂.Perm es)
    (hs₁ : l₁.Pairwise (fun a b => entry_le a b = true))
    (hs₂ : l₂.Pairwise (fun a b => entry_le a b = true)) : l₁ = l₂ := by
  refine eq_of_perm_of_pairwise (h₁.trans h₂.symm) hs₁ hs₂ ?_
  intro a ha b hb hab hba
  simp only [entry_le, decide_eq_true_eq] at hab hba
  have hz : compare_entries a b = 0 := by
    have := compare_antisymm a b
    omega
  have hkey := ((compare_eq_zero_iff a b).mp hz).2.2
  by_contra hne
  exact List.Pairwise.forall entry_key_ne_symmetric hkeys
    (h₁.mem_iff.mp ha) (h₁.mem_iff.mp hb) hne hkey

lemma mk_sort_entry_key (k : EntryKey) (v : JsonValue) (o : String) :
    (mk_sort_entry k v o).key = k := rfl

lemma mk_sort_entry_value (k : EntryKey) (v : JsonValue) (o : String) :
    (mk_sort_entry k v o).value = v := rfl

lemma mk_sort_entry_index_of_not_key {k : EntryKey} {v : JsonValue} {o : String}
    (h : ¬ (o = "$key" ∨ o = "$priority")) :
    (mk_sort_entry k v o).index = value_index o v := by
  unfold mk_sort_entry value_index
  rw [if_neg h]

lemma mk_sort_entry_index_of_key {k : EntryKey} {v : JsonValue} {o : String}
    (h : o = "$key" ∨ o = "$priority") :
    (mk_sort_entry k v o).index = key_to_json k := by
  unfold mk_sort_entry
  rw [if_pos h]

lemma obj_entries_pairs (fields : List (String × JsonValue)) (o : String) :
    (obj_entries fields o).map (fun e => (key_string e.key, e.value)) = fields := by
  unfold obj_entries
  rw [List.map_map]
  have h : ((fun e : SortEntry => (key_string e.key, e.value))
      ∘ fun kv : String × JsonValue => mk_sort_entry (EntryKey.str kv.1) kv.2 o) = id := by
    funext kv
    simp [mk_sort_entry, key_string]
  rw [h, List.map_id]

lemma arr_entries_values (elems : List JsonValue) (o : String) :
    (arr_entries elems o).map (fun e => e.value) = elems := by
  unfold arr_entries
  rw [List.map_map]
  have h : ((fun e : SortEntry => e.value)
      ∘ fun iv : Nat × JsonValue => mk_sort_entry (EntryKey.int iv.1) iv.2 o)
      = Prod.snd := by
    funext iv
    rfl
  rw [h, List.enum_map_snd]

lemma obj_entries_mem {fields : List (String × JsonValue)} {o : String} {e : SortEntry}
    (h : e ∈ obj_entries fields o) :
    (∃ s, e.key = EntryKey.str s) ∧ e = mk_sort_entry e.key e.value o := by
  obtain ⟨kv, -, rfl⟩ := List.mem_map.mp h
  exact ⟨⟨kv.1, rfl⟩, rfl⟩

lemma arr_entries_mem {elems : List JsonValue} {o : String} {e : SortEntry}
    (h : e ∈ arr_entries elems o) :
    (∃ n, e.key = EntryKey.int n) ∧ e = mk_sort_entry e.key e.value o := by
  obtain ⟨iv, -, rfl⟩ := List.mem_map.mp h
  exact ⟨⟨iv.1, rfl⟩, rfl⟩

/-- Replacing the keys of two compared entries by smaller-ordered fresh keys
while keeping the indices preserves a non-positive comparison strictly. -/
lemma compare_lt_of_reindex {a b a' b' : SortEntry}
    (h : compare_entries a b ≤ 0) (hia : a'.index = a.index) (hib : b'.index = b.index)
    (hk : key_lt a'.key b'.key = true) : compare_entries a' b' < 0 := by
  have hta : a'.index_type = a.index_type := by
    rw [index_type_def, index_type_def, hia]
  have htb : b'.index_type = b.index_type := by
    rw [index_type_def, index_type_def, hib]
  rw [compare_neg_iff]
  rcases lt_or_eq_of_le h with hlt | heq
  · rw [compare_neg_iff] at hlt
    rcases hlt with hlt | ⟨ht, ⟨h34, hne, hnlt⟩ | ⟨hnc, -⟩⟩
    · exact Or.inl (by rw [hta, htb]; exact hlt)
    · refine Or.inr ⟨by rw [hta, htb, ht], Or.inl ?_⟩
      rw [hta, hia, hib]
      exact ⟨h34, hne, hnlt⟩
    · refine Or.inr ⟨by rw [hta, htb, ht], Or.inr ⟨?_, hk⟩⟩
      rw [hta, hia, hib]
      exact hnc
  · obtain ⟨ht, hnc, -⟩ := (compare_eq_zero_iff a b).mp heq
    refine Or.inr ⟨by rw [hta, htb, ht], Or.inr ⟨?_, hk⟩⟩
    rw [hta, hia, hib]
    exact hnc

/-- Re-enumerating the values of a sorted entry list (as `_Sorter` does when
a sorted list output is fed back in as a list) keeps the entries sorted. -/
lemma arr_reenum_pairwise (o : String) :
    ∀ (es : List SortEntry) (n : Nat),
      es.Pairwise (fun a b => entry_le a b = true) →
      (∀ e ∈ es, ¬ (o = "$key" ∨ o = "$priority") → e.index = value_index o e.value) →
      ((List.enumFrom n (es.map (fun e => e.value))).map
        (fun iv => mk_sort_entry (EntryKey.int iv.1) iv.2 o)).Pairwise
          (fun a b => entry_le a b = true) := by
  intro es
  induction es with
  | nil =>
    intro n _ _
    simp
  | cons e rest ih =>
    intro n hs hidx
    rw [List.map_cons, List.enumFrom_cons, List.map_cons]
    refine List.pairwise_cons.mpr ⟨?_, ih (n + 1) (List.pairwise_cons.mp hs).2
      (fun f hf hko => hidx f (List.mem_cons_of_mem e hf) hko)⟩
    intro b hb
    obtain ⟨⟨m, v⟩, hmem, rfl⟩ := List.mem_map.mp hb
    obtain ⟨hge, hltlen, hvget⟩ := List.mem_enumFrom hmem
    have hvmem : v ∈ rest.map (fun e => e.value) := by
      rw [hvget]
      exact List.getElem_mem _
    obtain ⟨f, hf, rfl⟩ := List.mem_map.mp hvmem
    have hkltn : key_lt (EntryKey.int n) (EntryKey.int m) = true := by
      simp only [key_lt, decide_eq_true_eq]
      omega
    simp only [entry_le, decide_eq_true_eq]
    apply le_of_lt
    by_cases ho : o = "$key" ∨ o = "$priority"
    · have hia : (mk_sort_entry (EntryKey.int n) e.value o).index = JsonValue.num n :=
        mk_sort_entry_index_of_key ho
      have hib : (mk_sort_entry (EntryKey.int m) f.value o).index = JsonValue.num m :=
        mk_sort_entry_index_of_key ho
      rw [compare_neg_iff]
      refine Or.inr ⟨?_, Or.inl ?_⟩
      · rw [index_type_def, index_type_def, hia, hib]
        rfl
      · rw [index_type_def, hia, hib]
        refine ⟨Or.inl rfl, ?_, ?_⟩
        · intro hcon
          have : (n : ℚ) = m := by
            injection hcon
          have : n = m := Nat.cast_injective this
          omega
        · show (n : ℚ) < m
          exact_mod_cast (by omega : n < m)
    · have hle : compare_entries e f ≤ 0 := by
        have := (List.pairwise_cons.mp hs).1 f hf
        simpa [entry_le] using this
      refine compare_lt_of_reindex hle ?_ ?_ hkltn
      · rw [mk_sort_entry_index_of_not_key ho]
        exact (hidx e (List.mem_cons_self e rest) ho).symm
      · rw [mk_sort_entry_index_of_not_key ho]
        exact (hidx f (List.mem_cons_of_mem e hf) ho).symm

end Sorting

section RunHelpers

lemma extract_child_walk_null : ∀ (segs : List String),
    extract_child_walk segs JsonValue.null = JsonValue.null
  | [] => rfl
  | _ :: _ => rfl

lemma extract_child_walk_eq_spec : ∀ (segs : List String) (v : JsonValue),
    extract_child_walk segs v = child_walk_spec segs v
  | [], _ => rfl
  | seg :: rest, JsonValue.obj fields => by
    simp only [extract_child_walk, child_walk_spec]
    cases h : fields.lookup seg with
    | some w =>
      simp only [Option.getD_some]
      exact extract_child_walk_eq_spec rest w
    | none =>
      simp only [Option.getD_none]
      exact extract_child_walk_null rest
  | _ :: _, JsonValue.null => rfl
  | _ :: _, JsonValue.bool _ => rfl
  | _ :: _, JsonValue.num _ => rfl
  | _ :: _, JsonValue.str _ => rfl
  | _ :: _, JsonValue.arr _ => rfl

lemma compare_le_rank {a b : SortEntry} (h : compare_entries a b ≤ 0) :
    a.index_type ≤ b.index_type := by
  rcases lt_or_eq_of_le h with h' | h'
  · rw [compare_neg_iff] at h'
    rcases h' with h' | ⟨he, -⟩
    · exact le_of_lt h'
    · exact le_of_eq he
  · exact le_of_eq ((compare_eq_zero_iff a b).mp h').1

lemma value_order_index {e : SortEntry} {xs : List JsonValue}
    (h : e ∈ arr_entries xs "$value") : e.index = e.value := by
  obtain ⟨-, he⟩ := arr_entries_mem h
  conv_lhs => rw [he]
  rw [mk_sort_entry_index_of_not_key (by decide)]
  simp [value_index]

lemma query_run_sort_never_error (v : JsonValue) (k : String) (msg : String) :
    query_run_sort v k ≠ Except.error msg := by
  unfold query_run_sort
  by_cases hk : k = "$priority"
  · subst hk
    simp
  · cases v <;> simp [is_dict, is_list, hk, sorter_run]

lemma shape_cases (v : JsonValue) :
    is_dict v = true ∨ is_list v = true ∨ is_scalar_or_null v = true := by
  cases v <;> simp [is_dict, is_list, is_scalar_or_null]

end RunHelpers

section Claims

/-- C6: for every query whose order key is `$priority`, the post-processing
step of `Query.run` returns the decoded response value completely unchanged,
with no client-side re-sort, whatever its shape. -/
theorem claim_C6_priority_passthrough (result : JsonValue) :
    query_run_sort result "$priority" = Except.ok result := by
  unfold query_run_sort
  simp

/-- C7: a scalar or null query result is returned unchanged by the sort
step; the sort step fails exactly when the value is neither an object, an
array, a scalar, nor null (which no decoded JSON value is, so it never
fails); the underlying `_Sorter` raises its unsupported-shape error exactly
on non-dict, non-list input. -/
theorem claim_C7_scalar_passthrough_and_errors :
    (∀ (v : JsonValue) (k : String), is_scalar_or_null v = true →
        query_run_sort v k = Except.ok v)
    ∧ (∀ (v : JsonValue) (k : String),
        (∃ msg, query_run_sort v k = Except.error msg)
          ↔ ¬ (is_dict v = true ∨ is_list v = true ∨ is_scalar_or_null v = true))
    ∧ (∀ (v : JsonValue) (k : String),
        (∃ msg, sorter_run v k = Except.error msg)
          ↔ ¬ (is_dict v = true ∨ is_list v = true)) := by
  refine ⟨?_, ?_, ?_⟩
  · intro v k hv
    cases v <;> simp_all [is_scalar_or_null, query_run_sort, is_dict, is_list]
  · intro v k
    constructor
    · rintro ⟨msg, hmsg⟩
      exact absurd hmsg (query_run_sort_never_error v k msg)
    · intro h
      exact absurd (shape_cases v) h
  · intro v k
    cases v <;> simp [sorter_run, is_dict, is_list]

theorem claim_C7_witness :
    is_scalar_or_null (JsonValue.num 4) = true
      ∧ query_run_sort (JsonValue.num 4) "x" = Except.ok (JsonValue.num 4) :=
  ⟨rfl, claim_C7_scalar_passthrough_and_errors.1 (JsonValue.num 4) "x" rfl⟩

/-- C10: `_get_index_type` classifies a boolean as `_type_bool_false` or
`_type_bool_true`, never as `_type_numeric`; consequently an entry whose
index is `True` compares strictly before every entry whose index is a
number, and is never compared equal to it. -/
theorem claim_C10_bool_not_numeric :
    get_index_type (JsonValue.bool false) = type_bool_false
    ∧ get_index_type (JsonValue.bool true) = type_bool_true
    ∧ (∀ b : Bool, get_index_type (JsonValue.bool b) ≠ type_numeric)
    ∧ (∀ (a b : SortEntry) (q : ℚ), a.index = JsonValue.bool true →
        b.index = JsonValue.num q →
        compare_entries a b < 0 ∧ compare_entries a b ≠ 0) := by
  refine ⟨rfl, rfl, ?_, ?_⟩
  · intro b
    cases b <;> simp [get_index_type, type_bool_false, type_bool_true, type_numeric]
  · intro a b q ha hb
    have hlt : compare_entries a b < 0 := by
      rw [compare_neg_iff]
      left
      rw [index_type_def, index_type_def, ha, hb]
      simp [get_index_type, type_bool_true, type_numeric]
    exact ⟨hlt, by omega⟩

theorem claim_C10_witness :
    ({ key := EntryKey.str "a", value := JsonValue.null, index := JsonValue.bool true }
          : SortEntry).index = JsonValue.bool true
    ∧ ({ key := EntryKey.str "b", value := JsonValue.null, index := JsonValue.num 1 }
          : SortEntry).index = JsonValue.num 1
    ∧ (compare_entries
          { key := EntryKey.str "a", value := JsonValue.null, index := JsonValue.bool true }
          { key := EntryKey.str "b", value := JsonValue.null, index := JsonValue.num 1 } < 0
        ∧ compare_entries
          { key := EntryKey.str "a", value := JsonValue.null, index := JsonValue.bool true }
          { key := EntryKey.str "b", value := JsonValue.null, index := JsonValue.num 1 } ≠ 0) :=
  ⟨rfl, rfl, claim_C10_bool_not_numeric.2.2.2 _ _ 1 rfl rfl⟩

/-- C5: by-child extraction splits the path on `/` and walks the value as
nested objects to arbitrary depth, yielding null as soon as a step hits a
non-object or an absent key (`extract_child` agrees with the specification's
walk everywhere); for a non-reserved order key the entry index is exactly
that walk; and a null-indexed entry compares strictly before every entry
with a non-null index. -/
theorem claim_C5_by_child_extraction :
    (∀ (v : JsonValue) (p : String),
        extract_child v p = child_walk_spec (p.splitOn "/") v)
    ∧ (∀ (k : EntryKey) (v : JsonValue) (p : String), p ∉ reserved_filters →
        (mk_sort_entry k v p).index = child_walk_spec (p.splitOn "/") v)
    ∧ (∀ a b : SortEntry, a.index = JsonValue.null → b.index ≠ JsonValue.null →
        compare_entries a b < 0) := by
  refine ⟨?_, ?_, ?_⟩
  · intro v p
    exact extract_child_walk_eq_spec (p.splitOn "/") v
  · intro k v p hp
    simp only [reserved_filters, List.mem_cons, List.mem_singleton] at hp
    push_neg at hp
    obtain ⟨h1, h2, h3⟩ := hp
    unfold mk_sort_entry
    rw [if_neg (by tauto), if_neg h2]
    exact extract_child_walk_eq_spec (p.splitOn "/") v
  · intro a b ha hb
    rw [compare_neg_iff]
    left
    rw [index_type_def, index_type_def, ha]
    have h0 : get_index_type JsonValue.null = 0 := rfl
    have hb0 : get_index_type b.index ≠ 0 := by
      intro hc
      exact hb (index_type_null_iff.mp hc)
    omega

theorem claim_C5_witness :
    ("x" ∉ reserved_filters)
    ∧ (mk_sort_entry (EntryKey.str "k") (JsonValue.obj [("x", JsonValue.num 1)]) "x").index
        = child_walk_spec ("x".splitOn "/") (JsonValue.obj [("x", JsonValue.num 1)])
    ∧ ({ key := EntryKey.str "a", value := JsonValue.null, index := JsonValue.null }
          : SortEntry).index = JsonValue.null
    ∧ compare_entries
        { key := EntryKey.str "a", value := JsonValue.null, index := JsonValue.null }
        { key := EntryKey.str "b", value := JsonValue.null, index := JsonValue.num 1 } < 0 :=
  ⟨by decide,
    claim_C5_by_child_extraction.2.1 (EntryKey.str "k")
      (JsonValue.obj [("x", JsonValue.num 1)]) "x" (by decide),
    rfl,
    claim_C5_by_child_extraction.2.2 _ _ rfl
      (fun h => JsonValue.noConfusion h)⟩

/-- C8: constructing an ordering key from a non-string or empty
specification, from a reserved token passed as a by-child path, or from a
by-child path beginning with `/`, yields a `ValueError` synchronously in the
constructor, before any request is issued. -/
theorem claim_C8_construction_errors :
    (query_init_order_by OrderBySpec.nonstring
        = Except.error "order_by field must be a non-empty string")
    ∧ (query_init_order_by (OrderBySpec.pystr "")
        = Except.error "order_by field must be a non-empty string")
    ∧ (∀ s, s ∈ reserved_filters →
        order_by_child_query (OrderBySpec.pystr s)
          = Except.error ("Illegal child path: " ++ s))
    ∧ (∀ s, starts_with_slash s = true →
        query_init_order_by (OrderBySpec.pystr s)
          = Except.error ("Invalid path argument: \"" ++ s
              ++ "\". Child path must not start with \"/\""))
    ∧ (∀ s, starts_with_slash s = true →
        order_by_child_query (OrderBySpec.pystr s)
          = Except.error ("Invalid path argument: \"" ++ s
              ++ "\". Child path must not start with \"/\"")) := by
  have hslash : ∀ s, starts_with_slash s = true →
      query_init_order_by (OrderBySpec.pystr s)
        = Except.error ("Invalid path argument: \"" ++ s
            ++ "\". Child path must not start with \"/\"") := by
    intro s h
    have hne : s ≠ "" := by
      rintro rfl
      simp [starts_with_slash] at h
    have hres : s ∉ reserved_filters := by
      intro hs
      simp only [reserved_filters, List.mem_cons, List.not_mem_nil, or_false] at hs
      rcases hs with rfl | rfl | rfl <;> exact absurd h (by decide)
    simp only [query_init_order_by]
    rw [if_neg hne, if_neg hres, if_pos h]
  refine ⟨rfl, rfl, ?_, hslash, ?_⟩
  · intro s hs
    simp only [order_by_child_query]
    rw [if_pos hs]
  · intro s h
    have hres : s ∉ reserved_filters := by
      intro hs
      simp only [reserved_filters, List.mem_cons, List.not_mem_nil, or_false] at hs
      rcases hs with rfl | rfl | rfl <;> exact absurd h (by decide)
    simp only [order_by_child_query]
    rw [if_neg hres]
    exact hslash s h

theorem claim_C8_witness :
    ("$value" ∈ reserved_filters)
    ∧ (order_by_child_query (OrderBySpec.pystr "$value")
        = Except.error ("Illegal child path: " ++ "$value"))
    ∧ (starts_with_slash "/a" = true)
    ∧ (order_by_child_query (OrderBySpec.pystr "/a")
        = Except.error ("Invalid path argument: \"" ++ "/a"
            ++ "\". Child path must not start with \"/\"")) :=
  ⟨by decide,
    claim_C8_construction_errors.2.2.1 "$value" (by decide),
    by decide,
    claim_C8_construction_errors.2.2.2.2 "/a" (by decide)⟩

/-- C2: for entries whose own keys have one kind, `_compare` orders by index
type rank first; with equal numeric or string ranks and unequal indices, by
the natural order on the indices; and in every other same-rank case by the
entries' own keys ascending. -/
theorem claim_C2_compare_characterization (a b : SortEntry)
    (hk : same_key_kind a.key b.key) :
    compare_entries a b < 0 ↔
      (a.index_type < b.index_type
        ∨ (a.index_type = b.index_type
            ∧ (((a.index_type = type_numeric ∨ a.index_type = type_string)
                  ∧ a.index ≠ b.index ∧ index_nat_lt a.index b.index)
               ∨ (¬ ((a.index_type = type_numeric ∨ a.index_type = type_string)
                      ∧ a.index ≠ b.index)
                  ∧ entry_key_lt a.key b.key)))) := by
  rw [compare_neg_iff, key_lt_of_same_kind hk]

theorem claim_C2_witness :
    ∃ a b : SortEntry,
      a = { key := EntryKey.str "a", value := JsonValue.num 5, index := JsonValue.num 5 }
      ∧ b = { key := EntryKey.str "b", value := JsonValue.num 5, index := JsonValue.num 5 }
      ∧ same_key_kind a.key b.key
      ∧ (compare_entries a b < 0 ↔
          (a.index_type < b.index_type
            ∨ (a.index_type = b.index_type
                ∧ (((a.index_type = type_numeric ∨ a.index_type = type_string)
                      ∧ a.index ≠ b.index ∧ index_nat_lt a.index b.index)
                   ∨ (¬ ((a.index_type = type_numeric ∨ a.index_type = type_string)
                          ∧ a.index ≠ b.index)
                      ∧ entry_key_lt a.key b.key))))) :=
  ⟨_, _, rfl, rfl, trivial, claim_C2_compare_characterization _ _ trivial⟩

/-- C4: sorting a non-priority result keeps the shape: a dict result becomes
an insertion-ordered mapping holding exactly the original pairs, in sorted
entry order; a list result becomes the sequence of entry values in sorted
entry order, the original positions discarded. -/
theorem claim_C4_output_shapes (k : String) (hk : k ≠ "$priority") :
    (∀ fields : List (String × JsonValue), ∃ es : List SortEntry,
        es.Perm (obj_entries fields k)
        ∧ es.Pairwise (fun a b => entry_le a b = true)
        ∧ (es.map (fun e => (key_string e.key, e.value))).Perm fields
        ∧ query_run_sort (JsonValue.obj fields) k
            = Except.ok (JsonValue.obj (es.map (fun e => (key_string e.key, e.value)))))
    ∧ (∀ elems : List JsonValue, ∃ es : List SortEntry,
        es.Perm (arr_entries elems k)
        ∧ es.Pairwise (fun a b => entry_le a b = true)
        ∧ (es.map (fun e => e.value)).Perm elems
        ∧ query_run_sort (JsonValue.arr elems) k
            = Except.ok (JsonValue.arr (es.map (fun e => e.value)))) := by
  constructor
  · intro fields
    refine ⟨sort_entry_list (obj_entries fields k), sort_entry_list_perm _,
      sort_entry_list_sorted _, ?_, ?_⟩
    · have hp := (sort_entry_list_perm (obj_entries fields k)).map
        (fun e => (key_string e.key, e.value))
      rwa [obj_entries_pairs] at hp
    · simp [query_run_sort, is_dict, hk, sorter_run]
  · intro elems
    refine ⟨sort_entry_list (arr_entries elems k), sort_entry_list_perm _,
      sort_entry_list_sorted _, ?_, ?_⟩
    · have hp := (sort_entry_list_perm (arr_entries elems k)).map (fun e => e.value)
      rwa [arr_entries_values] at hp
    · simp [query_run_sort, is_list, hk, sorter_run]

theorem claim_C4_witness :
    ("x" : String) ≠ "$priority"
    ∧ (∃ es : List SortEntry,
        es.Perm (obj_entries [("b", JsonValue.num 2), ("a", JsonValue.num 1)] "x")
        ∧ es.Pairwise (fun a b => entry_le a b = true)
        ∧ (es.map (fun e => (key_string e.key, e.value))).Perm
            [("b", JsonValue.num 2), ("a", JsonValue.num 1)]
        ∧ query_run_sort (JsonValue.obj [("b", JsonValue.num 2), ("a", JsonValue.num 1)]) "x"
            = Except.ok (JsonValue.obj (es.map (fun e => (key_string e.key, e.value))))) :=
  ⟨by decide, (claim_C4_output_shapes "x" (by decide)).1
    [("b", JsonValue.num 2), ("a", JsonValue.num 1)]⟩

/-- C1: `_get_index_type` ranks null as 0, `False` as 1, `True` as 2,
numbers as 3, strings as 4 and composite values as 5; under by-value
ordering a collection with one index of each kind therefore sorts into
exactly that rank order, whatever the input order. -/
theorem claim_C1_type_ranks :
    (get_index_type JsonValue.null = 0
      ∧ get_index_type (JsonValue.bool false) = 1
      ∧ get_index_type (JsonValue.bool true) = 2
      ∧ (∀ q, get_index_type (JsonValue.num q) = 3)
      ∧ (∀ s, get_index_type (JsonValue.str s) = 4)
      ∧ (∀ fs, get_index_type (JsonValue.obj fs) = 5)
      ∧ (∀ vs, get_index_type (JsonValue.arr vs) = 5))
    ∧ (∀ xs : List JsonValue, xs.Perm six_kinds →
        sorter_run (JsonValue.arr xs) "$value" = Except.ok (JsonValue.arr six_kinds)) := by
  constructor
  · exact ⟨rfl, rfl, rfl, fun _ => rfl, fun _ => rfl, fun _ => rfl, fun _ => rfl⟩
  · intro xs hxs
    have hvals : ((sort_entry_list (arr_entries xs "$value")).map
        (fun e => e.value)) = six_kinds := by
      set es := sort_entry_list (arr_entries xs "$value") with hes
      have hperm₀ : es.Perm (arr_entries xs "$value") := sort_entry_list_perm _
      have hsorted : es.Pairwise (fun a b => entry_le a b = true) := sort_entry_list_sorted _
      have hidx : ∀ e ∈ es, e.index = e.value := by
        intro e he
        exact value_order_index (hperm₀.mem_iff.mp he)
      have hvp : (es.map (fun e => e.value)).Perm xs := by
        have hp := hperm₀.map (fun e => e.value)
        rwa [arr_entries_values] at hp
      have hvp6 : (es.map (fun e => e.value)).Perm six_kinds := hvp.trans hxs
      have hpw : (es.map (fun e => e.value)).Pairwise
          (fun v w => get_index_type v ≤ get_index_type w) := by
        rw [List.pairwise_map]
        refine List.Pairwise.imp_of_mem ?_ hsorted
        intro a b ha hb hle
        have h1 : a.index = a.value := hidx a ha
        have h2 : b.index = b.value := hidx b hb
        have h3 := compare_le_rank (a := a) (b := b) (by simpa [entry_le] using hle)
        rw [index_type_def, index_type_def, h1, h2] at h3
        exact h3
      have hpw6 : six_kinds.Pairwise
          (fun v w => get_index_type v ≤ get_index_type w) := by
        decide
      refine eq_of_perm_of_pairwise hvp6 hpw hpw6 ?_
      intro v hv w hw h1 h2
      have hv6 := hvp6.mem_iff.mp hv
      have hw6 := hvp6.mem_iff.mp hw
      fin_cases hv6 <;> fin_cases hw6 <;>
        first
          | rfl
          | exact absurd h1 (by decide)
          | exact absurd h2 (by decide)
    simp only [sorter_run]
    rw [hvals]

theorem claim_C1_witness :
    six_kinds.reverse.Perm six_kinds
    ∧ sorter_run (JsonValue.arr six_kinds.reverse) "$value"
        = Except.ok (JsonValue.arr six_kinds) :=
  ⟨List.reverse_perm six_kinds,
    claim_C1_type_ranks.2 six_kinds.reverse (List.reverse_perm six_kinds)⟩

/-- C3: on a collection of entries with pairwise distinct keys of a single
kind, the `_compare` relation is a strict total order (irreflexive,
asymmetric, transitive, total on distinct entries), so sorting any two
arrangements of the collection produces the same sequence. -/
theorem claim_C3_strict_total_order (es : List SortEntry)
    (hkeys : es.Pairwise (fun a b => a.key ≠ b.key))
    (hkind : (∀ e ∈ es, ∃ s, e.key = EntryKey.str s)
        ∨ (∀ e ∈ es, ∃ n, e.key = EntryKey.int n)) :
    (∀ a ∈ es, ¬ compare_entries a a < 0)
    ∧ (∀ a ∈ es, ∀ b ∈ es, compare_entries a b < 0 → ¬ compare_entries b a < 0)
    ∧ (∀ a ∈ es, ∀ b ∈ es, ∀ c ∈ es,
        compare_entries a b < 0 → compare_entries b c < 0 → compare_entries a c < 0)
    ∧ (∀ a ∈ es, ∀ b ∈ es, a ≠ b →
        compare_entries a b < 0 ∨ compare_entries b a < 0)
    ∧ (∀ l₁ l₂ : List SortEntry, l₁.Perm es → l₂.Perm es →
        sort_entry_list l₁ = sort_entry_list l₂) := by
  refine ⟨?_, ?_, ?_, ?_, ?_⟩
  · intro a _
    rw [compare_self]
    omega
  · intro a _ b _ hab
    have h := compare_antisymm a b
    omega
  · intro a _ b _ c _ h1 h2
    exact compare_lt_trans h1 h2
  · intro a ha b hb hne
    have hkne : a.key ≠ b.key :=
      List.Pairwise.forall entry_key_ne_symmetric hkeys ha hb hne
    have hz : compare_entries a b ≠ 0 := by
      intro h0
      exact hkne ((compare_eq_zero_iff a b).mp h0).2.2
    have h := compare_antisymm a b
    omega
  · intro l₁ l₂ h₁ h₂
    exact sorted_entries_unique hkeys ((sort_entry_list_perm l₁).trans h₁)
      ((sort_entry_list_perm l₂).trans h₂)
      (sort_entry_list_sorted l₁) (sort_entry_list_sorted l₂)

theorem claim_C3_witness :
    ∃ es : List SortEntry,
      es = [{ key := EntryKey.str "a", value := JsonValue.num 1, index := JsonValue.num 1 },
            { key := EntryKey.str "b", value := JsonValue.num 2, index := JsonValue.num 2 }]
      ∧ es.Pairwise (fun a b => a.key ≠ b.key)
      ∧ ((∀ e ∈ es, ∃ s, e.key = EntryKey.str s)
          ∨ (∀ e ∈ es, ∃ n, e.key = EntryKey.int n))
      ∧ ((∀ a ∈ es, ¬ compare_entries a a < 0)
        ∧ (∀ a ∈ es, ∀ b ∈ es, compare_entries a b < 0 → ¬ compare_entries b a < 0)
        ∧ (∀ a ∈ es, ∀ b ∈ es, ∀ c ∈ es,
            compare_entries a b < 0 → compare_entries b c < 0 → compare_entries a c < 0)
        ∧ (∀ a ∈ es, ∀ b ∈ es, a ≠ b →
            compare_entries a b < 0 ∨ compare_entries b a < 0)
        ∧ (∀ l₁ l₂ : List SortEntry, l₁.Perm es → l₂.Perm es →
            sort_entry_list l₁ = sort_entry_list l₂)) :=
  ⟨_, rfl, by decide,
    Or.inl (by
      intro e he
      fin_cases he <;> exact ⟨_, rfl⟩),
    claim_C3_strict_total_order _ (by decide)
      (Or.inl (by
        intro e he
        fin_cases he <;> exact ⟨_, rfl⟩))⟩

/-- C9: for a non-empty dict or list result and a non-priority order key,
feeding the sorter's output back into the sorter reproduces it unchanged. -/
theorem claim_C9_sort_idempotent (k : String) (x y : JsonValue)
    (hk : k ≠ "$priority")
    (hx : (∃ fields, fields ≠ [] ∧ x = JsonValue.obj fields)
        ∨ (∃ elems, elems ≠ [] ∧ x = JsonValue.arr elems))
    (h : sorter_run x k = Except.ok y) :
    sorter_run y k = Except.ok y := by
  rcases hx with ⟨fields, -, rfl⟩ | ⟨elems, -, rfl⟩
  · have hy : y = JsonValue.obj ((sort_entry_list (obj_entries fields k)).map
        (fun e => (key_string e.key, e.value))) := by
      simp only [sorter_run] at h
      exact (Except.ok.inj h).symm
    set es := sort_entry_list (obj_entries fields k) with hes
    have hsor : es.Pairwise (fun a b => entry_le a b = true) := sort_entry_list_sorted _
    have hmem : ∀ e ∈ es, (∃ s, e.key = EntryKey.str s)
        ∧ e = mk_sort_entry e.key e.value k := by
      intro e he
      exact obj_entries_mem ((sort_entry_list_perm _).mem_iff.mp he)
    have hentries : obj_entries (es.map (fun e => (key_string e.key, e.value))) k = es := by
      unfold obj_entries
      rw [List.map_map]
      have hcong : ∀ e ∈ es,
          ((fun kv : String × JsonValue => mk_sort_entry (EntryKey.str kv.1) kv.2 k)
            ∘ (fun e : SortEntry => (key_string e.key, e.value))) e = id e := by
        intro e he
        obtain ⟨⟨s, hs⟩, hmk⟩ := hmem e he
        simp only [Function.comp_apply, id_eq, hs, key_string]
        rw [hs] at hmk
        exact hmk.symm
      rw [List.map_congr_left hcong, List.map_id]
    rw [hy]
    simp only [sorter_run]
    rw [hentries, sort_entry_list_of_sorted hsor]
  · have hy : y = JsonValue.arr ((sort_entry_list (arr_entries elems k)).map
        (fun e => e.value)) := by
      simp only [sorter_run] at h
      exact (Except.ok.inj h).symm
    set es := sort_entry_list (arr_entries elems k) with hes
    have hsor : es.Pairwise (fun a b => entry_le a b = true) := sort_entry_list_sorted _
    have hidx : ∀ e ∈ es, ¬ (k = "$key" ∨ k = "$priority") →
        e.index = value_index k e.value := by
      intro e he hko
      obtain ⟨-, hmk⟩ := arr_entries_mem ((sort_entry_list_perm _).mem_iff.mp he)
      conv_lhs => rw [hmk]
      exact mk_sort_entry_index_of_not_key hko
    have hpw : (arr_entries (es.map (fun e => e.value)) k).Pairwise
        (fun a b => entry_le a b = true) := by
      unfold arr_entries
      exact arr_reenum_pairwise k es 0 hsor hidx
    rw [hy]
    simp only [sorter_run]
    rw [sort_entry_list_of_sorted hpw, arr_entries_values]

unseal List.merge List.mergeSort in
theorem claim_C9_witness :
    ("$value" : String) ≠ "$priority"
    ∧ ((∃ fields, fields ≠ ([] : List (String × JsonValue))
          ∧ JsonValue.obj [("a", JsonValue.num 1)] = JsonValue.obj fields)
        ∨ (∃ elems, elems ≠ ([] : List JsonValue)
          ∧ JsonValue.obj [("a", JsonValue.num 1)] = JsonValue.arr elems))
    ∧ sorter_run (JsonValue.obj [("a", JsonValue.num 1)]) "$value"
        = Except.ok (JsonValue.obj [("a", JsonValue.num 1)])
    ∧ sorter_run (JsonValue.obj [("a", JsonValue.num 1)]) "$value"
        = Except.ok (JsonValue.obj [("a", JsonValue.num 1)]) := by
  have hrun : sorter_run (JsonValue.obj [("a", JsonValue.num 1)]) "$value"
      = Except.ok (JsonValue.obj [("a", JsonValue.num 1)]) := rfl
  exact ⟨by decide, Or.inl ⟨_, by simp, rfl⟩, hrun,
    claim_C9_sort_idempotent "$value" _ _ (by decide) (Or.inl ⟨_, by simp, rfl⟩) hrun⟩

end Claims

end FirebaseDb
